import Mathlib

/-!
Shallow embedding of the opencode-claude-max-proxy streaming protocol
translation core (src/src/proxy/server.ts and the revisions kept under
src/unnamed), together with proofs of the spec's testable properties.
-/

/-- Content block as read by the proxy: the code looks at `block.type` and
`block.text` (src/src/proxy/server.ts, handleMessages). -/
structure ContentBlock where
  btype : String
  text : String
deriving Repr, DecidableEq

/-- Usage payload: the streaming path reads/overrides `usage.output_tokens`. -/
structure UsageInfo where
  output_tokens : Nat
deriving Repr, DecidableEq

/-- Delta payload of a stream event; the code reads and patches
`delta.stop_reason` and spreads the remaining fields. -/
structure DeltaPayload where
  dtype : Option String
  text : Option String
  stop_reason : Option String
deriving Repr, DecidableEq

/-- One upstream SSE stream event as the loosely typed record the proxy
reads: `event.type`, `event.index`, `event.content_block`, `event.delta`,
`event.usage` (src/src/proxy/server.ts lines 193-226). -/
structure StreamEvent where
  etype : String
  index : Option Nat
  content_block : Option ContentBlock
  delta : Option DeltaPayload
  usage : Option UsageInfo
deriving Repr, DecidableEq

/-- One message yielded by the upstream SDK iterator: the proxy branches on
`message.type` being "stream_event", "assistant", "result" or other. -/
inductive SDKMessage where
  | streamEvent (e : StreamEvent)
  | assistant (content : List ContentBlock)
  | result (subtype : String) (resultText : Option String)
  | system
deriving Repr, DecidableEq

/-- Patch applied to a `message_delta` event (src/src/proxy/server.ts
lines 214-219): spread the event, override `delta.stop_reason` with
"end_turn" keeping the other delta fields, and default a missing `usage`
to `\x7b output_tokens: 0 \x7d`. -/
def patchMessageDelta (e : StreamEvent) : StreamEvent :=
  { e with
    delta := some { e.delta.getD ⟨none, none, none⟩ with stop_reason := some "end_turn" },
    usage := some (e.usage.getD ⟨0⟩) }

/-- Test used at src/src/proxy/server.ts lines 200-202: the event is a
`content_block_start` whose `content_block.type` is "tool_use". -/
def isToolUseStart (e : StreamEvent) : Bool :=
  e.etype == "content_block_start" &&
    (match e.content_block with
     | some b => b.btype == "tool_use"
     | none => false)

/-- Membership test `eventIndex !== undefined && skipBlockIndices.has(eventIndex)`
(src/src/proxy/server.ts line 209). -/
def indexSuppressed (skip : List Nat) (e : StreamEvent) : Bool :=
  match e.index with
  | some i => skip.contains i
  | none => false

/-- One iteration of the stream-event remapping loop of
src/src/proxy/server.ts lines 199-226: returns the updated suppressed-index
set and the event forwarded downstream, if any. -/
def stepEvent (skip : List Nat) (e : StreamEvent) : List Nat × Option StreamEvent :=
  if isToolUseStart e then
    (match e.index with
     | some i => i :: skip
     | none => skip, none)
  else if indexSuppressed skip e then
    (skip, none)
  else if e.etype == "message_delta" then
    (skip, some (patchMessageDelta e))
  else
    (skip, some e)

/-- One iteration of the remapping loop of the src/unnamed/part_002 revision
(lines 319-336), which additionally clears the suppressed-index set on every
`message_start` before the tool_use filter runs. -/
def stepEventV2 (skip : List Nat) (e : StreamEvent) : List Nat × Option StreamEvent :=
  stepEvent (if e.etype == "message_start" then [] else skip) e

/-- Suppressed-index set after folding the remapping loop over a list of
events, starting from a given set. -/
def skipAfter (skip : List Nat) : List StreamEvent → List Nat
  | [] => skip
  | e :: rest => skipAfter (stepEvent skip e).1 rest

/-- Downstream event produced for the event that follows a given prefix of
the upstream event sequence, starting from suppressed-index set `skip`. -/
def emitAt (skip : List Nat) (pre : List StreamEvent) (e : StreamEvent) : Option StreamEvent :=
  (stepEvent (skipAfter skip pre) e).2

/-- Downstream events emitted for a list of upstream stream events
(the stream-event branch of src/src/proxy/server.ts lines 193-226). -/
def runEventsFrom (skip : List Nat) : List StreamEvent → List StreamEvent
  | [] => []
  | e :: rest =>
    match stepEvent skip e with
    | (skip', some d) => d :: runEventsFrom skip' rest
    | (skip', none) => runEventsFrom skip' rest

/-- Projection of the upstream SDK message stream onto stream events:
`message.type === "stream_event"` carries `message.event`. -/
def streamEventOf : SDKMessage → Option StreamEvent
  | .streamEvent e => some e
  | _ => none

/-- Downstream events emitted by the full streaming loop of
src/src/proxy/server.ts lines 193-227 over the upstream SDK message
sequence: only `stream_event` messages are examined, every other message
type falls through the `if` and produces nothing. -/
def processMessagesFrom (skip : List Nat) : List SDKMessage → List StreamEvent
  | [] => []
  | .streamEvent e :: rest =>
    match stepEvent skip e with
    | (skip', some d) => d :: processMessagesFrom skip' rest
    | (skip', none) => processMessagesFrom skip' rest
  | _ :: rest => processMessagesFrom skip rest

/-- Fallback sentence substituted by the non-stream path when no text content
was produced (src/src/proxy/server.ts lines 148-150). -/
def FALLBACK_TEXT : String :=
  "I can help with that. Could you provide more details about what you'd like me to do?"

/-- Text accumulated from one assistant message's content blocks:
`for (const block of message.message.content) if (block.type === "text") fullContent += block.text`
(src/src/proxy/server.ts lines 139-143). -/
def blocksText : List ContentBlock → String
  | [] => ""
  | b :: rest => (if b.btype == "text" then b.text else "") ++ blocksText rest

/-- Concatenation of the text blocks of every assistant-typed upstream
message, in order (src/src/proxy/server.ts lines 137-145). -/
def aggregateAssistantText : List SDKMessage → String
  | [] => ""
  | .assistant blocks :: rest => blocksText blocks ++ aggregateAssistantText rest
  | _ :: rest => aggregateAssistantText rest

/-- JSON object returned by the non-stream path (src/src/proxy/server.ts
lines 152-160), restricted to its deterministic fields (the `id` derives
from the clock and `model` echoes the request). -/
structure NonStreamResponse where
  rtype : String
  role : String
  content : List ContentBlock
  stop_reason : String
  input_tokens : Nat
  output_tokens : Nat
deriving Repr, DecidableEq

/-- Non-stream aggregation path of handleMessages (src/src/proxy/server.ts
lines 137-160): concatenate assistant text blocks, substitute the fallback
sentence if the concatenation is empty, and return one message object with
`stop_reason` "end_turn" and zero usage counters. -/
def nonStreamResponse (msgs : List SDKMessage) : NonStreamResponse :=
  let fullContent := aggregateAssistantText msgs
  let fullContent := if fullContent == "" then FALLBACK_TEXT else fullContent
  { rtype := "message"
    role := "assistant"
    content := [⟨"text", fullContent⟩]
    stop_reason := "end_turn"
    input_tokens := 0
    output_tokens := 0 }

/-- Content field of an inbound message: a string, an array of blocks, or
some other raw value whose string form the code takes via `String(m.content)`. -/
inductive MessageContent where
  | str (s : String)
  | blocks (bs : List ContentBlock)
  | other (raw : String)
deriving Repr, DecidableEq

/-- Inbound message of the request body. -/
structure InboundMessage where
  role : String
  content : MessageContent
deriving Repr, DecidableEq

/-- Content rendering of src/src/proxy/server.ts lines 101-111: string
content verbatim; array content filtered to blocks with `type === "text"`
and truthy `text`, mapped to their text and joined with no separator;
anything else via its string form. -/
def renderContent : MessageContent → String
  | .str s => s
  | .blocks bs =>
    String.join ((bs.filter (fun b => b.btype == "text" && b.text != "")).map (fun b => b.text))
  | .other raw => raw

/-- Message rendering of src/src/proxy/server.ts lines 100-112: role
"assistant" renders as "Assistant", every other role as "Human", followed
by ": " and the rendered content. -/
def renderMessage (m : InboundMessage) : String :=
  (if m.role == "assistant" then "Assistant" else "Human") ++ ": " ++ renderContent m.content

/-- Conversation rendering of src/src/proxy/server.ts lines 98-114: each
message rendered and the results joined with a blank line. -/
def conversationParts (msgs : List InboundMessage) : String :=
  String.intercalate "\n\n" (msgs.map renderMessage)

/-- Content rendering as the spec words it: "array content replaced by the
separator-free concatenation of text fields of type-text blocks" (spec.md
section 4.2), without the code's extra truthiness filter on `text`. -/
def renderContentSpec : MessageContent → String
  | .str s => s
  | .blocks bs =>
    String.join ((bs.filter (fun b => b.btype == "text")).map (fun b => b.text))
  | .other raw => raw

/-- Prompt rendering as the spec words it: each message as
"<Role>: <content>", messages joined with a blank line. -/
def conversationPartsSpec (msgs : List InboundMessage) : String :=
  String.intercalate "\n\n"
    (msgs.map (fun m =>
      (if m.role == "assistant" then "Assistant" else "Human") ++ ": " ++ renderContentSpec m.content))

/-- Decides whether the character list `n` begins the character list `h`. -/
def hasPrefixL : List Char → List Char → Bool
  | _, [] => true
  | [], _ :: _ => false
  | a :: as, b :: bs => a == b && hasPrefixL as bs

/-- Decides whether the character list `n` occurs contiguously in `h`. -/
def containsL : List Char → List Char → Bool
  | [], n => n.isEmpty
  | a :: as, n => hasPrefixL (a :: as) n || containsL as n

/-- Substring test with the semantics of JavaScript String.prototype.includes. -/
def jsIncludes (s sub : String) : Bool :=
  containsL s.toList sub.toList

/-- Model mapping of src/src/proxy/server.ts lines 54-58: a name containing
"opus" maps to "opus", else one containing "haiku" maps to "haiku", else
"sonnet". -/
def mapModelToClaudeModel (model : String) : String :=
  if jsIncludes model "opus" then "opus"
  else if jsIncludes model "haiku" then "haiku"
  else "sonnet"

/-- Synthetic message payload sent with the doc-revision streaming path's
opening `message_start` (src/unnamed/part_002 lines 719-730), restricted to
its deterministic fields. -/
structure SynMessage where
  mtype : String
  role : String
  content : List ContentBlock
  stop_reason : Option String
  input_tokens : Nat
  output_tokens : Nat
deriving Repr, DecidableEq

/-- Downstream SSE event of the src/unnamed/part_002 revision (second
document) that synthesizes the event envelope itself. -/
inductive Doc2Out where
  | messageStartEv (m : SynMessage)
  | contentBlockStartEv (index : Nat) (block : ContentBlock)
  | contentBlockDeltaEv (index : Nat) (text : String)
  | contentBlockStopEv (index : Nat)
  | messageDeltaEv (stop_reason : String) (output_tokens : Nat)
  | messageStopEv
  | errorEv (subtype : String)
deriving Repr, DecidableEq

/-- Loop state of the src/unnamed/part_002 second-document streaming path
(lines 755-814): whether any text delta was sent, the last success result
text, and the last error result subtype. -/
structure Doc2LoopState where
  sentText : Bool
  successResultText : Option String
  resultError : Option String
deriving Repr, DecidableEq

/-- Text deltas emitted for one assistant message's content blocks
(src/unnamed/part_002 lines 802-813): one `content_block_delta` at index 0
per text block. -/
def doc2AssistantDeltas : List ContentBlock → List Doc2Out
  | [] => []
  | b :: rest =>
    (if b.btype == "text" then [Doc2Out.contentBlockDeltaEv 0 b.text] else [])
      ++ doc2AssistantDeltas rest

/-- Whether an assistant message's blocks contain a text block, mirroring
the `sentText = true` assignments of src/unnamed/part_002 lines 802-813. -/
def doc2HasText : List ContentBlock → Bool
  | [] => false
  | b :: rest => b.btype == "text" || doc2HasText rest

/-- Message loop of the src/unnamed/part_002 second-document streaming path
(lines 760-814): emit text deltas for assistant messages and track the last
result message's outcome. -/
def doc2Loop (st : Doc2LoopState) : List SDKMessage → List Doc2Out × Doc2LoopState
  | [] => ([], st)
  | .assistant blocks :: rest =>
    let out := doc2AssistantDeltas blocks
    let st' := { st with sentText := st.sentText || doc2HasText blocks }
    let (outRest, stFin) := doc2Loop st' rest
    (out ++ outRest, stFin)
  | .result subtype resultText :: rest =>
    let st' :=
      if subtype == "success" then { st with successResultText := resultText }
      else { st with resultError := some subtype }
    doc2Loop st' rest
  | _ :: rest => doc2Loop st rest

/-- Full emission sequence of the src/unnamed/part_002 second-document
streaming path (lines 718-863): synthetic `message_start` and
`content_block_start` before the upstream call, then the loop, then the
success-result fallback delta, then either an `error` event (on an error
result) or the terminal `content_block_stop` / `message_delta` /
`message_stop` sequence. -/
def doc2Stream (msgs : List SDKMessage) : List Doc2Out :=
  let opening : List Doc2Out :=
    [Doc2Out.messageStartEv ⟨"message", "assistant", [], none, 0, 0⟩,
     Doc2Out.contentBlockStartEv 0 ⟨"text", ""⟩]
  let (loopOut, st) := doc2Loop ⟨false, none, none⟩ msgs
  let fallbackOut : List Doc2Out :=
    if !st.sentText then
      match st.successResultText with
      | some t => if t.trim.length > 0 then [Doc2Out.contentBlockDeltaEv 0 t] else []
      | none => []
    else []
  let tail : List Doc2Out :=
    match st.resultError with
    | some subtype => [Doc2Out.errorEv subtype]
    | none =>
      [Doc2Out.contentBlockStopEv 0,
       Doc2Out.messageDeltaEv "end_turn" 0,
       Doc2Out.messageStopEv]
  opening ++ loopOut ++ fallbackOut ++ tail

/-- Outcome of one attempted write against the downstream sink: success,
the specific "Controller is already closed" condition recognized by
isClosedControllerError (src/unnamed/part_002 lines 62-65), or any other
failure. -/
inductive WriteRes where
  | ok
  | closedErr
  | otherErr
deriving Repr, DecidableEq

/-- Result of one safeEnqueue call: a returned boolean, or a rethrown
exception (the non-closed-controller branch of src/unnamed/part_002
lines 252-256). -/
inductive EnqOutcome where
  | ret (b : Bool)
  | thrown
deriving Repr, DecidableEq

/-- Session-visible write state: the monotone streamClosed flag and the log
of writes actually performed against the sink, each with its label and the
sink's response. -/
structure SessState where
  closed : Bool
  writes : List (String × WriteRes)
deriving Repr, DecidableEq

/-- Guarded write of src/unnamed/part_002 lines 239-258: skip (return false)
when streamClosed; otherwise perform the write, returning true on success,
converting the closed-controller condition into streamClosed := true and a
false return, and rethrowing any other failure. The sink is modelled as a
function from the number of writes performed so far to that write's
outcome. -/
def safeEnqueue (sink : Nat → WriteRes) (st : SessState) (label : String) :
    SessState × EnqOutcome :=
  if st.closed then (st, .ret false)
  else
    match sink st.writes.length with
    | .ok => ({ st with writes := st.writes ++ [(label, .ok)] }, .ret true)
    | .closedErr => ({ closed := true, writes := st.writes ++ [(label, .closedErr)] }, .ret false)
    | .otherErr => ({ st with writes := st.writes ++ [(label, .otherErr)] }, .thrown)

/-- Message loop of the src/unnamed/part_002 streaming path (lines 298-367):
break when streamClosed, remap each stream event, write each forwarded event
through safeEnqueue, break on a false return, and propagate a thrown write
failure (second component true). -/
def sessionLoop (sink : Nat → WriteRes) :
    List SDKMessage → List Nat → SessState → SessState × Bool
  | [], _, st => (st, false)
  | msg :: rest, skip, st =>
    if st.closed then (st, false)
    else
      match msg with
      | .streamEvent e =>
        match stepEventV2 skip e with
        | (skip', some d) =>
          match safeEnqueue sink st ("stream_event:" ++ d.etype) with
          | (st', .ret true) => sessionLoop sink rest skip' st'
          | (st', .ret false) => (st', false)
          | (st', .thrown) => (st', true)
        | (skip', none) => sessionLoop sink rest skip' st
      | _ => sessionLoop sink rest skip st

/-- Streaming session body of src/unnamed/part_002 lines 260-442: run the
loop; on normal exit close the controller unless the client is already gone;
on a thrown write failure run the catch block, which attempts one `error`
event through safeEnqueue (escaping the session if that write itself throws)
and then closes the controller unless the client is already gone. Returns
the final state and whether an exception escaped the session. -/
def runSession (sink : Nat → WriteRes) (msgs : List SDKMessage) : SessState × Bool :=
  let st0 : SessState := ⟨false, []⟩
  match sessionLoop sink msgs [] st0 with
  | (st, false) =>
    if st.closed then (st, false) else ({ st with closed := true }, false)
  | (st, true) =>
    match safeEnqueue sink st "error_event" with
    | (st', .thrown) => (st', true)
    | (st', .ret _) =>
      if st'.closed then (st', false) else ({ st' with closed := true }, false)

/-- State of the spec-modelled admission queue: the FIFO waiting line, the
bodies currently executing, and logs of enqueue and start order. -/
structure QueueState where
  waiting : List Nat
  running : List Nat
  enqueued : List Nat
  started : List Nat
deriving Repr, DecidableEq

/-- Modelled from the spec: the Admission Queue is implemented by the
external p-queue package (`new PQueue(\x7b concurrency: 1 \x7d)` at
src/src/proxy/server.ts line 33), whose code is not part of this repository;
its contract is taken from spec.md section 4.1 — at most one task body runs
concurrently, waiting tasks start in strict FIFO order, and a task's failure
does not keep the next task from starting. A start step requires fewer than
one running body; a finish step (successful or failed) removes a running
body. -/
inductive QStep : QueueState → QueueState → Prop where
  | enqueue (s : QueueState) (t : Nat) :
      QStep s { s with waiting := s.waiting ++ [t], enqueued := s.enqueued ++ [t] }
  | start (s : QueueState) (t : Nat) (rest : List Nat)
      (hw : s.waiting = t :: rest) (hr : s.running.length < 1) :
      QStep s { s with waiting := rest, running := t :: s.running,
                       started := s.started ++ [t] }
  | finish (s : QueueState) (t : Nat) (success : Bool) (h : t ∈ s.running) :
      QStep s { s with running := s.running.erase t }

/-- Queue states reachable from the empty queue. -/
inductive QReach : QueueState → Prop where
  | init : QReach ⟨[], [], [], []⟩
  | step {s s' : QueueState} : QReach s → QStep s s' → QReach s'

/-- Downstream events emitted by the src/unnamed/part_002 remapping loop
(the revision that clears the suppressed set on `message_start`) for a list
of upstream stream events. -/
def runEventsV2From (skip : List Nat) : List StreamEvent → List StreamEvent
  | [] => []
  | e :: rest =>
    match stepEventV2 skip e with
    | (skip', some d) => d :: runEventsV2From skip' rest
    | (skip', none) => runEventsV2From skip' rest

/-- Example upstream event: a `content_block_start` of type "tool_use" at
block index `k`. -/
def evToolStart (k : Nat) : StreamEvent :=
  ⟨"content_block_start", some k, some ⟨"tool_use", ""⟩, none, none⟩

/-- Example upstream event: a `content_block_start` of a text block at
block index `k`. -/
def evTextStart (k : Nat) : StreamEvent :=
  ⟨"content_block_start", some k, some ⟨"text", ""⟩, none, none⟩

/-- Example upstream event: a text `content_block_delta` at block index `k`. -/
def evTextDelta (k : Nat) (t : String) : StreamEvent :=
  ⟨"content_block_delta", some k, none, some ⟨some "text_delta", some t, none⟩, none⟩

/-- Example upstream event: a `content_block_stop` at block index `k`. -/
def evBlockStop (k : Nat) : StreamEvent :=
  ⟨"content_block_stop", some k, none, none, none⟩

/-- Example upstream event: a `message_start`. -/
def evMessageStart : StreamEvent :=
  ⟨"message_start", none, none, none, none⟩

/-- Example upstream event: a `message_delta` with upstream stop reason `sr`
and no usage field. -/
def evMessageDelta (sr : String) : StreamEvent :=
  ⟨"message_delta", none, none, some ⟨none, none, some sr⟩, none⟩

/-- Example downstream sink whose very first write raises the
closed-controller condition and which would accept any later write. -/
def w3sink : Nat → WriteRes :=
  fun n => if n == 0 then WriteRes.closedErr else WriteRes.ok

/-- Example upstream message sequence: one forwarded text delta. -/
def w3msgs : List SDKMessage :=
  [SDKMessage.streamEvent (evTextDelta 0 "hi")]

/-- Computable check that any write whose result is the closed-controller
condition is the last write performed against the sink. -/
def closedErrOnlyLast : List (String × WriteRes) → Bool
  | [] => true
  | p :: rest => (!(p.2 == WriteRes.closedErr) || rest.isEmpty) && closedErrOnlyLast rest

/-- Computable check that no performed write got the closed-controller
condition. -/
def noClosedErr (l : List (String × WriteRes)) : Bool :=
  l.all (fun p => !(p.2 == WriteRes.closedErr))

theorem string_join_cons (s : String) (l : List String) :
    String.join (s :: l) = s ++ String.join l := by
  apply String.ext
  simp

theorem renderContent_eq_spec (c : MessageContent) :
    renderContent c = renderContentSpec c := by
  cases c with
  | str s => rfl
  | other raw => rfl
  | blocks bs =>
    simp only [renderContent, renderContentSpec]
    induction bs with
    | nil => rfl
    | cons b rest ih =>
      by_cases hb : b.btype = "text"
      · by_cases ht : b.text = ""
        · simp [List.filter_cons, hb, ht, ih, string_join_cons]
        · simp [List.filter_cons, hb, ht, ih, string_join_cons]
      · simp [List.filter_cons, hb, ih]

/-- C8: the rendered prompt renders each message as "<Role>: <content>" with
role "assistant" as "Assistant" and every other role as "Human", string
content verbatim, array content as the separator-free concatenation of the
text fields of type-"text" blocks, other content via its string form, and
messages joined by a blank line; for messages user "hi" then assistant
"hello" the prompt is exactly "Human: hi\n\nAssistant: hello". -/
theorem c8_prompt_rendering :
    (∀ msgs : List InboundMessage, conversationParts msgs = conversationPartsSpec msgs) ∧
    conversationParts
        [⟨"user", MessageContent.str "hi"⟩, ⟨"assistant", MessageContent.str "hello"⟩]
      = "Human: hi\n\nAssistant: hello" := by
  constructor
  · intro msgs
    have hfun : renderMessage = fun m : InboundMessage =>
        (if m.role == "assistant" then "Assistant" else "Human") ++ ": "
          ++ renderContentSpec m.content := by
      funext m
      simp [renderMessage, renderContent_eq_spec]
    simp [conversationParts, conversationPartsSpec, hfun]
  · rfl

/-- C9: the model mapping returns "opus" for any requested name containing
"opus", else "haiku" for any name containing "haiku", else "sonnet"; in
particular "claude-3-opus-20240229" maps to opus, "claude-3-5-haiku" to
haiku, and "gpt-4" to sonnet. -/
theorem c9_model_mapping :
    (∀ s : String, jsIncludes s "opus" = true → mapModelToClaudeModel s = "opus") ∧
    (∀ s : String, jsIncludes s "opus" = false → jsIncludes s "haiku" = true →
      mapModelToClaudeModel s = "haiku") ∧
    (∀ s : String, jsIncludes s "opus" = false → jsIncludes s "haiku" = false →
      mapModelToClaudeModel s = "sonnet") ∧
    mapModelToClaudeModel "claude-3-opus-20240229" = "opus" ∧
    mapModelToClaudeModel "claude-3-5-haiku" = "haiku" ∧
    mapModelToClaudeModel "gpt-4" = "sonnet" := by
  refine ⟨?_, ?_, ?_, rfl, rfl, rfl⟩
  · intro s h
    simp [mapModelToClaudeModel, h]
  · intro s h1 h2
    simp [mapModelToClaudeModel, h1, h2]
  · intro s h1 h2
    simp [mapModelToClaudeModel, h1, h2]

/-- Witness for C9: each branch of the mapping applied at a concrete model
name. -/
theorem c9_model_mapping_witness :
    mapModelToClaudeModel "my-opus-model" = "opus" ∧
    mapModelToClaudeModel "my-haiku-model" = "haiku" ∧
    mapModelToClaudeModel "gpt-4o" = "sonnet" :=
  ⟨c9_model_mapping.1 "my-opus-model" rfl,
   c9_model_mapping.2.1 "my-haiku-model" rfl rfl,
   c9_model_mapping.2.2.1 "gpt-4o" rfl rfl⟩

/-- C7: the non-stream response contains exactly one text content block whose
text is the concatenation of the text blocks of assistant-typed upstream
messages, or the fixed fallback sentence when that concatenation is empty
(never the empty string), with stop_reason "end_turn" and zero-valued usage
counters. -/
theorem c7_nonstream_fallback (msgs : List SDKMessage) :
    (nonStreamResponse msgs).rtype = "message" ∧
    (nonStreamResponse msgs).role = "assistant" ∧
    (aggregateAssistantText msgs = "" →
      (nonStreamResponse msgs).content = [⟨"text", FALLBACK_TEXT⟩]) ∧
    (aggregateAssistantText msgs ≠ "" →
      (nonStreamResponse msgs).content = [⟨"text", aggregateAssistantText msgs⟩]) ∧
    (∀ b ∈ (nonStreamResponse msgs).content, b.btype = "text" ∧ b.text ≠ "") ∧
    (nonStreamResponse msgs).stop_reason = "end_turn" ∧
    (nonStreamResponse msgs).input_tokens = 0 ∧
    (nonStreamResponse msgs).output_tokens = 0 := by
  by_cases h : aggregateAssistantText msgs = ""
  · refine ⟨rfl, rfl, fun _ => ?_, fun hne => absurd h hne, ?_, rfl, rfl, rfl⟩
    · simp [nonStreamResponse, h]
    · intro b hb
      simp [nonStreamResponse, h] at hb
      subst hb
      exact ⟨rfl, by decide⟩
  · have h' : (aggregateAssistantText msgs == "") = false := by simpa using h
    refine ⟨rfl, rfl, fun he => absurd he h, fun _ => ?_, ?_, rfl, rfl, rfl⟩
    · simp [nonStreamResponse, h']
    · intro b hb
      simp [nonStreamResponse, h'] at hb
      subst hb
      exact ⟨rfl, h⟩

/-- Witness for C7: the fallback branch at an upstream run with only a
tool_use block, and the concatenation branch at a run with one text block. -/
theorem c7_nonstream_fallback_witness :
    (nonStreamResponse [SDKMessage.assistant [⟨"tool_use", ""⟩]]).content
        = [⟨"text", FALLBACK_TEXT⟩] ∧
    (nonStreamResponse [SDKMessage.assistant [⟨"text", "hi"⟩]]).content
        = [⟨"text", "hi"⟩] :=
  ⟨(c7_nonstream_fallback [SDKMessage.assistant [⟨"tool_use", ""⟩]]).2.2.1 rfl,
   (c7_nonstream_fallback [SDKMessage.assistant [⟨"text", "hi"⟩]]).2.2.2.1 (by decide)⟩

/-- C2: every upstream message_delta event that is not suppressed is
forwarded, with delta.stop_reason overridden to "end_turn" regardless of the
upstream stop reason, and usage defaulted to output_tokens 0 exactly when
the upstream event has no usage field. -/
theorem c2_stop_reason_normalization (skip : List Nat) (e : StreamEvent)
    (he : e.etype = "message_delta") (hs : indexSuppressed skip e = false) :
    stepEvent skip e = (skip, some (patchMessageDelta e)) ∧
    (patchMessageDelta e).delta.map DeltaPayload.stop_reason = some (some "end_turn") ∧
    (e.usage = none → (patchMessageDelta e).usage = some ⟨0⟩) ∧
    (∀ u, e.usage = some u → (patchMessageDelta e).usage = some u) := by
  refine ⟨?_, ?_, ?_, ?_⟩
  · simp [stepEvent, isToolUseStart, he, hs]
  · simp [patchMessageDelta]
  · intro hu
    simp [patchMessageDelta, hu]
  · intro u hu
    simp [patchMessageDelta, hu]

/-- Witness for C2: a message_delta with upstream stop reason "tool_use" and
no usage field, against a nonempty suppressed-index set. -/
theorem c2_stop_reason_normalization_witness :
    stepEvent [3] (evMessageDelta "tool_use")
        = ([3], some (patchMessageDelta (evMessageDelta "tool_use"))) ∧
    (patchMessageDelta (evMessageDelta "tool_use")).delta.map DeltaPayload.stop_reason
        = some (some "end_turn") ∧
    (patchMessageDelta (evMessageDelta "tool_use")).usage = some ⟨0⟩ :=
  ⟨(c2_stop_reason_normalization [3] (evMessageDelta "tool_use") rfl rfl).1,
   (c2_stop_reason_normalization [3] (evMessageDelta "tool_use") rfl rfl).2.1,
   (c2_stop_reason_normalization [3] (evMessageDelta "tool_use") rfl rfl).2.2.1 rfl⟩

/-- C5: the streaming path of the src/unnamed/part_002 second-document
revision always begins its downstream SSE stream with a synthetic
message_start carrying an empty content list and a null stop_reason,
followed by a synthetic content_block_start for a single text block at
index 0, before anything derived from the upstream session. -/
theorem c5_synthetic_opening (msgs : List SDKMessage) :
    (doc2Stream msgs).take 2 =
      [Doc2Out.messageStartEv ⟨"message", "assistant", [], none, 0, 0⟩,
       Doc2Out.contentBlockStartEv 0 ⟨"text", ""⟩] := by
  rcases h : doc2Loop ⟨false, none, none⟩ msgs with ⟨loopOut, st⟩
  simp [doc2Stream, h]

theorem skipAfter_append (s : List Nat) (xs ys : List StreamEvent) :
    skipAfter s (xs ++ ys) = skipAfter (skipAfter s xs) ys := by
  induction xs generalizing s with
  | nil => rfl
  | cons e rest ih => simp [skipAfter, ih]

theorem stepEvent_toolstart (s : List Nat) (e : StreamEvent) (k : Nat)
    (ht : isToolUseStart e = true) (hi : e.index = some k) :
    stepEvent s e = (k :: s, none) := by
  simp [stepEvent, ht, hi]

theorem stepEvent_skip_cases (s : List Nat) (e : StreamEvent) :
    (stepEvent s e).1 = s ∨
    (isToolUseStart e = true ∧ ∃ i, e.index = some i ∧ (stepEvent s e).1 = i :: s) := by
  by_cases ht : isToolUseStart e = true
  · cases hi : e.index with
    | none => left; simp [stepEvent, ht, hi]
    | some i => right; exact ⟨ht, i, rfl, by simp [stepEvent, ht, hi]⟩
  · have ht' : isToolUseStart e = false := by simpa using ht
    left
    simp only [stepEvent, ht', Bool.false_eq_true, if_false]
    split
    · rfl
    · split <;> rfl

theorem stepEvent_suppressed (s : List Nat) (e : StreamEvent) (k : Nat)
    (hk : s.contains k = true) (hi : e.index = some k) :
    (stepEvent s e).2 = none := by
  by_cases ht : isToolUseStart e = true
  · cases h : e.index <;> simp [stepEvent, ht, h]
  · have ht' : isToolUseStart e = false := by simpa using ht
    have hk' : k ∈ s := by simpa using hk
    have hs : indexSuppressed s e = true := by simp [indexSuppressed, hi, hk']
    simp [stepEvent, ht', hs]

theorem stepEvent_forward (s : List Nat) (e : StreamEvent)
    (ht : isToolUseStart e = false) (hs : indexSuppressed s e = false)
    (hd : e.etype ≠ "message_delta") :
    stepEvent s e = (s, some e) := by
  have hd' : (e.etype == "message_delta") = false := by simpa using hd
  simp [stepEvent, ht, hs, hd']

theorem skipAfter_mono (l : List StreamEvent) (s : List Nat) (k : Nat)
    (h : s.contains k = true) : (skipAfter s l).contains k = true := by
  induction l generalizing s with
  | nil => exact h
  | cons e rest ih =>
    show (skipAfter (stepEvent s e).1 rest).contains k = true
    apply ih
    rcases stepEvent_skip_cases s e with h1 | ⟨_, i, _, h2⟩
    · rw [h1]; exact h
    · rw [h2]
      have h' : k ∈ s := by simpa using h
      simp [h']

theorem skipAfter_subset (l : List StreamEvent) (s : List Nat) (m : Nat)
    (hm : (skipAfter s l).contains m = true) :
    s.contains m = true ∨ ∃ x ∈ l, isToolUseStart x = true ∧ x.index = some m := by
  induction l generalizing s with
  | nil => left; exact hm
  | cons e rest ih =>
    rcases ih (stepEvent s e).1 hm with h1 | ⟨x, hx, hx2⟩
    · rcases stepEvent_skip_cases s e with hc | ⟨ht, i, hi, hc⟩
      · rw [hc] at h1; left; exact h1
      · rw [hc] at h1
        rcases (by simpa [List.contains_cons] using h1 : m = i ∨ s.contains m = true) with h | h
        · right
          exact ⟨e, by simp, ht, by rw [hi, h]⟩
        · left; exact h
    · right; exact ⟨x, by simp [hx], hx2⟩

/-- C1: once a content_block_start of type tool_use arrives at index k, that
start event and every subsequent event carrying index k (in particular its
deltas and stop) produce no downstream output, while events at other,
never-suppressed indices that are not tool_use starts and not message_delta
(in particular same-turn text-block events) are forwarded verbatim. -/
theorem c1_tool_suppression :
    (∀ (skip0 : List Nat) (pre : List StreamEvent) (tEv : StreamEvent) (k : Nat),
        isToolUseStart tEv = true → tEv.index = some k →
        emitAt skip0 pre tEv = none) ∧
    (∀ (skip0 : List Nat) (pre mid : List StreamEvent) (tEv e : StreamEvent) (k : Nat),
        isToolUseStart tEv = true → tEv.index = some k → e.index = some k →
        emitAt skip0 (pre ++ tEv :: mid) e = none) ∧
    (∀ (skip0 : List Nat) (pre : List StreamEvent) (e : StreamEvent) (m : Nat),
        e.index = some m → skip0.contains m = false →
        (∀ x ∈ pre, isToolUseStart x = true → x.index ≠ some m) →
        isToolUseStart e = false → e.etype ≠ "message_delta" →
        emitAt skip0 pre e = some e) := by
  refine ⟨?_, ?_, ?_⟩
  · intro skip0 pre tEv k ht hi
    show (stepEvent (skipAfter skip0 pre) tEv).2 = none
    rw [stepEvent_toolstart _ tEv k ht hi]
  · intro skip0 pre mid tEv e k ht hti hei
    show (stepEvent (skipAfter skip0 (pre ++ tEv :: mid)) e).2 = none
    have hk : (skipAfter skip0 (pre ++ tEv :: mid)).contains k = true := by
      rw [skipAfter_append]
      show (skipAfter (stepEvent (skipAfter skip0 pre) tEv).1 mid).contains k = true
      apply skipAfter_mono
      rw [stepEvent_toolstart _ tEv k ht hti]
      simp [List.contains_cons]
    exact stepEvent_suppressed _ e k hk hei
  · intro skip0 pre e m hei h0 hpre ht hd
    show (stepEvent (skipAfter skip0 pre) e).2 = some e
    have hm : m ∉ skipAfter skip0 pre := by
      intro hc
      have hc' : (skipAfter skip0 pre).contains m = true := by simpa using hc
      rcases skipAfter_subset pre skip0 m hc' with h | ⟨x, hx, hx1, hx2⟩
      · rw [h0] at h; cases h
      · exact hpre x hx hx1 hx2
    have hs : indexSuppressed (skipAfter skip0 pre) e = false := by
      simp [indexSuppressed, hei, hm]
    rw [stepEvent_forward _ e ht hs hd]

/-- Witness for C1: a tool_use start at index 1 is dropped, its delta at
index 1 is dropped, and a text delta at index 0 passes through unchanged. -/
theorem c1_tool_suppression_witness :
    emitAt [] [] (evToolStart 1) = none ∧
    emitAt [] ([] ++ evToolStart 1 :: []) (evTextDelta 1 "x") = none ∧
    emitAt [] [evToolStart 1] (evTextDelta 0 "y") = some (evTextDelta 0 "y") :=
  ⟨c1_tool_suppression.1 [] [] (evToolStart 1) 1 rfl rfl,
   c1_tool_suppression.2.1 [] [] [] (evToolStart 1) (evTextDelta 1 "x") 1 rfl rfl rfl,
   c1_tool_suppression.2.2 [] [evToolStart 1] (evTextDelta 0 "y") 0 rfl rfl
     (by decide) rfl (by decide)⟩

/-- C6: in the src/unnamed/part_002 revision the suppressed-index set is
cleared on every upstream message_start and the message_start itself is
forwarded verbatim; consequently a non-tool text block whose index was
suppressed in an earlier message is forwarded after the next message_start,
not suppressed. -/
theorem c6_message_start_scope :
    (∀ (skip : List Nat) (e : StreamEvent), e.etype = "message_start" →
        stepEventV2 skip e = ([], some e)) ∧
    (∀ (skip : List Nat) (mEv tEv : StreamEvent) (k : Nat),
        skip.contains k = true →
        mEv.etype = "message_start" →
        isToolUseStart tEv = false → tEv.etype ≠ "message_delta" → tEv.index = some k →
        runEventsV2From skip [mEv, tEv] = [mEv, tEv]) := by
  have part1 : ∀ (skip : List Nat) (e : StreamEvent), e.etype = "message_start" →
      stepEventV2 skip e = ([], some e) := by
    intro skip e he
    have ht : isToolUseStart e = false := by simp [isToolUseStart, he]
    have hs : indexSuppressed [] e = false := by
      cases h : e.index <;> simp [indexSuppressed, h]
    have hd : e.etype ≠ "message_delta" := by rw [he]; decide
    show stepEvent (if e.etype == "message_start" then [] else skip) e = ([], some e)
    rw [he]
    simpa using stepEvent_forward [] e ht hs hd
  refine ⟨part1, ?_⟩
  intro skip mEv tEv k hk hm ht hd hi
  have h2 : stepEventV2 [] tEv = ([], some tEv) := by
    have hs : indexSuppressed [] tEv = false := by
      cases h : tEv.index <;> simp [indexSuppressed, h]
    show stepEvent (if tEv.etype == "message_start" then [] else []) tEv = ([], some tEv)
    have hif : (if tEv.etype == "message_start" then ([] : List Nat) else []) = [] := by
      split <;> rfl
    rw [hif, stepEvent_forward [] tEv ht hs hd]
  simp only [runEventsV2From, part1 skip mEv hm, h2]

/-- Witness for C6: a message_start clears a suppressed set containing 1 and
is forwarded; a text block start at the previously suppressed index 1 is
forwarded after it. -/
theorem c6_message_start_scope_witness :
    stepEventV2 [7] evMessageStart = ([], some evMessageStart) ∧
    runEventsV2From [1] [evMessageStart, evTextStart 1] = [evMessageStart, evTextStart 1] :=
  ⟨c6_message_start_scope.1 [7] evMessageStart rfl,
   c6_message_start_scope.2 [1] evMessageStart (evTextStart 1) 1 (by decide) rfl rfl
     (by decide) rfl⟩

/-- C10: the streaming loop produces downstream events only from upstream
messages of type "stream_event"; its output equals the remapping of the
stream events alone, and a message sequence with no stream_event message
produces no downstream output at all. -/
theorem c10_stream_events_only :
    (∀ (skip : List Nat) (msgs : List SDKMessage),
        processMessagesFrom skip msgs = runEventsFrom skip (msgs.filterMap streamEventOf)) ∧
    (∀ (skip : List Nat) (msgs : List SDKMessage),
        (∀ m ∈ msgs, streamEventOf m = none) → processMessagesFrom skip msgs = []) := by
  have part1 : ∀ (skip : List Nat) (msgs : List SDKMessage),
      processMessagesFrom skip msgs = runEventsFrom skip (msgs.filterMap streamEventOf) := by
    intro skip msgs
    induction msgs generalizing skip with
    | nil => rfl
    | cons m rest ih =>
      cases m with
      | streamEvent e =>
        simp only [processMessagesFrom, List.filterMap_cons, streamEventOf]
        cases h : stepEvent skip e with
        | mk skip' out => cases out <;> simp [runEventsFrom, h, ih]
      | assistant c =>
        simpa [processMessagesFrom, List.filterMap_cons, streamEventOf] using ih skip
      | result s t =>
        simpa [processMessagesFrom, List.filterMap_cons, streamEventOf] using ih skip
      | system =>
        simpa [processMessagesFrom, List.filterMap_cons, streamEventOf] using ih skip
  refine ⟨part1, ?_⟩
  intro skip msgs h
  rw [part1]
  have hnil : msgs.filterMap streamEventOf = [] := by
    simpa [List.filterMap_eq_nil_iff] using h
  rw [hnil]
  rfl

/-- Witness for C10: a turn consisting of an assistant message, a success
result carrying the final text, and a system message emits nothing. -/
theorem c10_stream_events_only_witness :
    processMessagesFrom []
      [SDKMessage.assistant [⟨"text", "hi"⟩],
       SDKMessage.result "success" (some "hi"),
       SDKMessage.system] = [] :=
  c10_stream_events_only.2 []
    [SDKMessage.assistant [⟨"text", "hi"⟩],
     SDKMessage.result "success" (some "hi"),
     SDKMessage.system] (by decide)

theorem noClosedErr_append (l : List (String × WriteRes)) (w : String × WriteRes)
    (hl : noClosedErr l = true) (hw : (w.2 == WriteRes.closedErr) = false) :
    noClosedErr (l ++ [w]) = true := by
  simp only [noClosedErr, List.all_append, List.all_cons, List.all_nil, Bool.and_true] at *
  simp [hl, hw]

theorem closedErrOnlyLast_append (l : List (String × WriteRes)) (w : String × WriteRes)
    (hl : noClosedErr l = true) :
    closedErrOnlyLast (l ++ [w]) = true := by
  induction l with
  | nil => simp [closedErrOnlyLast]
  | cons p rest ih =>
    simp only [noClosedErr, List.all_cons, Bool.and_eq_true] at hl
    obtain ⟨h1, h2⟩ := hl
    simp only [List.cons_append, closedErrOnlyLast, h1, Bool.true_or, Bool.true_and]
    exact ih h2

theorem safeEnqueue_skip_closed (sink : Nat → WriteRes) (st : SessState) (label : String)
    (hc : st.closed = true) :
    safeEnqueue sink st label = (st, EnqOutcome.ret false) := by
  simp [safeEnqueue, hc]

theorem safeEnqueue_closedErr (sink : Nat → WriteRes) (st : SessState) (label : String)
    (hc : st.closed = false) (hs : sink st.writes.length = WriteRes.closedErr) :
    safeEnqueue sink st label
      = (⟨true, st.writes ++ [(label, WriteRes.closedErr)]⟩, EnqOutcome.ret false) := by
  simp [safeEnqueue, hc, hs]

theorem safeEnqueue_preserves (sink : Nat → WriteRes) (st : SessState) (label : String)
    (hA : st.closed = false → noClosedErr st.writes = true)
    (hB : closedErrOnlyLast st.writes = true) :
    ((safeEnqueue sink st label).1.closed = false →
        noClosedErr (safeEnqueue sink st label).1.writes = true) ∧
    closedErrOnlyLast (safeEnqueue sink st label).1.writes = true := by
  by_cases hc : st.closed = true
  · rw [safeEnqueue_skip_closed sink st label hc]
    exact ⟨hA, hB⟩
  · have hc' : st.closed = false := by simpa using hc
    have hcl := hA hc'
    cases hs : sink st.writes.length with
    | ok =>
      constructor
      · intro _
        simp only [safeEnqueue, hc', Bool.false_eq_true, if_false, hs]
        exact noClosedErr_append _ _ hcl rfl
      · simp only [safeEnqueue, hc', Bool.false_eq_true, if_false, hs]
        exact closedErrOnlyLast_append _ _ hcl
    | closedErr =>
      constructor
      · intro hfalse
        rw [safeEnqueue_closedErr sink st label hc' hs] at hfalse
        cases hfalse
      · rw [safeEnqueue_closedErr sink st label hc' hs]
        exact closedErrOnlyLast_append _ _ hcl
    | otherErr =>
      constructor
      · intro _
        simp only [safeEnqueue, hc', Bool.false_eq_true, if_false, hs]
        exact noClosedErr_append _ _ hcl rfl
      · simp only [safeEnqueue, hc', Bool.false_eq_true, if_false, hs]
        exact closedErrOnlyLast_append _ _ hcl

theorem sessionLoop_preserves (sink : Nat → WriteRes) (msgs : List SDKMessage) :
    ∀ (skip : List Nat) (st : SessState),
      (st.closed = false → noClosedErr st.writes = true) →
      closedErrOnlyLast st.writes = true →
      (((sessionLoop sink msgs skip st).1.closed = false →
          noClosedErr (sessionLoop sink msgs skip st).1.writes = true) ∧
        closedErrOnlyLast (sessionLoop sink msgs skip st).1.writes = true) := by
  induction msgs with
  | nil =>
    intro skip st hA hB
    exact ⟨hA, hB⟩
  | cons msg rest ih =>
    intro skip st hA hB
    by_cases hc : st.closed = true
    · have heq : sessionLoop sink (msg :: rest) skip st = (st, false) := by
        simp [sessionLoop, hc]
      rw [heq]
      exact ⟨hA, hB⟩
    · have hc' : st.closed = false := by simpa using hc
      cases msg with
      | streamEvent e =>
        rcases hstep : stepEventV2 skip e with ⟨skip', out⟩
        cases out with
        | none =>
          have heq : sessionLoop sink (SDKMessage.streamEvent e :: rest) skip st
              = sessionLoop sink rest skip' st := by
            simp [sessionLoop, hc', hstep]
          rw [heq]
          exact ih skip' st hA hB
        | some d =>
          rcases henq : safeEnqueue sink st ("stream_event:" ++ d.etype) with ⟨st', res⟩
          have hpres := safeEnqueue_preserves sink st ("stream_event:" ++ d.etype) hA hB
          rw [henq] at hpres
          cases res with
          | thrown =>
            have heq : sessionLoop sink (SDKMessage.streamEvent e :: rest) skip st
                = (st', true) := by
              simp [sessionLoop, hc', hstep, henq]
            rw [heq]
            exact hpres
          | ret b =>
            cases b with
            | false =>
              have heq : sessionLoop sink (SDKMessage.streamEvent e :: rest) skip st
                  = (st', false) := by
                simp [sessionLoop, hc', hstep, henq]
              rw [heq]
              exact hpres
            | true =>
              have heq : sessionLoop sink (SDKMessage.streamEvent e :: rest) skip st
                  = sessionLoop sink rest skip' st' := by
                simp [sessionLoop, hc', hstep, henq]
              rw [heq]
              exact ih skip' st' hpres.1 hpres.2
      | assistant c =>
        have heq : sessionLoop sink (SDKMessage.assistant c :: rest) skip st
            = sessionLoop sink rest skip st := by
          simp [sessionLoop, hc']
        rw [heq]
        exact ih skip st hA hB
      | result s t =>
        have heq : sessionLoop sink (SDKMessage.result s t :: rest) skip st
            = sessionLoop sink rest skip st := by
          simp [sessionLoop, hc']
        rw [heq]
        exact ih skip st hA hB
      | system =>
        have heq : sessionLoop sink (SDKMessage.system :: rest) skip st
            = sessionLoop sink rest skip st := by
          simp [sessionLoop, hc']
        rw [heq]
        exact ih skip st hA hB

theorem runSession_invariants (sink : Nat → WriteRes) (msgs : List SDKMessage) :
    closedErrOnlyLast (runSession sink msgs).1.writes = true ∧
    ((runSession sink msgs).2 = true →
      noClosedErr (runSession sink msgs).1.writes = true) ∧
    ((runSession sink msgs).2 = false → (runSession sink msgs).1.closed = true) := by
  have hloop := sessionLoop_preserves sink msgs [] ⟨false, []⟩ (fun _ => rfl) rfl
  rcases hrun : sessionLoop sink msgs [] ⟨false, []⟩ with ⟨st, thrown⟩
  rw [hrun] at hloop
  cases thrown with
  | false =>
    by_cases hc : st.closed = true
    · have heq : runSession sink msgs = (st, false) := by
        simp [runSession, hrun, hc]
      rw [heq]
      exact ⟨hloop.2, fun h => by simp at h, fun _ => hc⟩
    · have hc' : st.closed = false := by simpa using hc
      have heq : runSession sink msgs = ({ st with closed := true }, false) := by
        simp [runSession, hrun, hc']
      rw [heq]
      exact ⟨hloop.2, fun h => by simp at h, fun _ => rfl⟩
  | true =>
    have hpres := safeEnqueue_preserves sink st "error_event" hloop.1 hloop.2
    by_cases hc : st.closed = true
    · have henq := safeEnqueue_skip_closed sink st "error_event" hc
      rw [henq] at hpres
      have heq : runSession sink msgs = (st, false) := by
        simp [runSession, hrun, henq, hc]
      rw [heq]
      exact ⟨hloop.2, fun h => by simp at h, fun _ => hc⟩
    · have hc' : st.closed = false := by simpa using hc
      cases hs : sink st.writes.length with
      | ok =>
        have henq : safeEnqueue sink st "error_event"
            = ({ st with writes := st.writes ++ [("error_event", WriteRes.ok)] },
               EnqOutcome.ret true) := by
          simp [safeEnqueue, hc', hs]
        rw [henq] at hpres
        have heq : runSession sink msgs
            = ({ closed := true, writes := st.writes ++ [("error_event", WriteRes.ok)] },
               false) := by
          simp [runSession, hrun, henq, hc']
        rw [heq]
        exact ⟨hpres.2, fun h => by simp at h, fun _ => rfl⟩
      | closedErr =>
        have henq := safeEnqueue_closedErr sink st "error_event" hc' hs
        rw [henq] at hpres
        have heq : runSession sink msgs
            = (⟨true, st.writes ++ [("error_event", WriteRes.closedErr)]⟩, false) := by
          simp [runSession, hrun, henq]
        rw [heq]
        exact ⟨hpres.2, fun h => by simp at h, fun _ => rfl⟩
      | otherErr =>
        have henq : safeEnqueue sink st "error_event"
            = ({ st with writes := st.writes ++ [("error_event", WriteRes.otherErr)] },
               EnqOutcome.thrown) := by
          simp [safeEnqueue, hc', hs]
        rw [henq] at hpres
        have heq : runSession sink msgs
            = ({ st with writes := st.writes ++ [("error_event", WriteRes.otherErr)] },
               true) := by
          simp [runSession, hrun, henq]
        rw [heq]
        refine ⟨hpres.2, fun _ => ?_, fun h => by simp at h⟩
        exact noClosedErr_append _ _ (hloop.1 hc') rfl

/-- C3: a write that raises the sink's closed-controller condition sets the
client-gone flag and returns false without raising; once the flag is set
every write attempt returns false without touching the sink; consequently
nothing — in particular no error event — is ever written after the closed
condition (the closed-condition write is the last performed write), and no
exception escapes a session whose log contains the closed condition. -/
theorem c3_client_gone_quietness (sink : Nat → WriteRes) (msgs : List SDKMessage) :
    (∀ (st : SessState) (label : String), st.closed = true →
        safeEnqueue sink st label = (st, EnqOutcome.ret false)) ∧
    (∀ (st : SessState) (label : String), st.closed = false →
        sink st.writes.length = WriteRes.closedErr →
        safeEnqueue sink st label
          = (⟨true, st.writes ++ [(label, WriteRes.closedErr)]⟩, EnqOutcome.ret false)) ∧
    closedErrOnlyLast (runSession sink msgs).1.writes = true ∧
    (∀ label, (label, WriteRes.closedErr) ∈ (runSession sink msgs).1.writes →
        (runSession sink msgs).2 = false ∧ (runSession sink msgs).1.closed = true) := by
  refine ⟨fun st label hc => safeEnqueue_skip_closed sink st label hc,
          fun st label hc hs => safeEnqueue_closedErr sink st label hc hs,
          (runSession_invariants sink msgs).1, ?_⟩
  intro label hmem
  have hinv := runSession_invariants sink msgs
  have hesc : (runSession sink msgs).2 = false := by
    by_contra h
    have h' : (runSession sink msgs).2 = true := by
      revert h; cases (runSession sink msgs).2 <;> simp
    have hno := hinv.2.1 h'
    simp only [noClosedErr, List.all_eq_true] at hno
    have := hno (label, WriteRes.closedErr) hmem
    simp at this
  exact ⟨hesc, hinv.2.2 hesc⟩

/-- Witness for C3: against a sink whose first write raises the
closed-controller condition, the session logs exactly that one write,
finishes with the client-gone flag set and no escaping exception, and a
closed-state write is skipped. -/
theorem c3_client_gone_quietness_witness :
    safeEnqueue w3sink ⟨true, []⟩ "x" = (⟨true, []⟩, EnqOutcome.ret false) ∧
    safeEnqueue w3sink ⟨false, []⟩ "y"
      = (⟨true, [("y", WriteRes.closedErr)]⟩, EnqOutcome.ret false) ∧
    closedErrOnlyLast (runSession w3sink w3msgs).1.writes = true ∧
    ((runSession w3sink w3msgs).2 = false ∧ (runSession w3sink w3msgs).1.closed = true) :=
  ⟨(c3_client_gone_quietness w3sink w3msgs).1 ⟨true, []⟩ "x" rfl,
   (c3_client_gone_quietness w3sink w3msgs).2.1 ⟨false, []⟩ "y" rfl rfl,
   (c3_client_gone_quietness w3sink w3msgs).2.2.1,
   (c3_client_gone_quietness w3sink w3msgs).2.2.2 "stream_event:content_block_delta"
     (by decide)⟩

theorem qstep_running_le {s s' : QueueState} (hs : QStep s s')
    (ih : s.running.length ≤ 1) : s'.running.length ≤ 1 := by
  cases hs with
  | enqueue t => exact ih
  | start t rest hw hlt => simpa using hlt
  | finish t success hmem => exact le_trans (List.length_erase_le _ _) ih

theorem qstep_fifo {s s' : QueueState} (hs : QStep s s')
    (ih : s.started ++ s.waiting = s.enqueued) :
    s'.started ++ s'.waiting = s'.enqueued := by
  cases hs with
  | enqueue t =>
    show s.started ++ (s.waiting ++ [t]) = s.enqueued ++ [t]
    rw [← List.append_assoc, ih]
  | start t rest hw hlt =>
    show (s.started ++ [t]) ++ rest = s.enqueued
    rw [List.append_assoc]
    simpa [hw] using ih
  | finish t success hmem => exact ih

/-- C4: in every reachable state of the admission queue (modelled from the
spec's contract for the external p-queue dependency with concurrency 1), at
most one task body runs at any instant, the tasks started so far are exactly
a prefix of the enqueue order (strict FIFO starts), and after a running
task finishes — in particular by failing — the next waiting task can start
immediately. -/
theorem c4_single_flight :
    (∀ s : QueueState, QReach s → s.running.length ≤ 1) ∧
    (∀ s : QueueState, QReach s → s.started ++ s.waiting = s.enqueued) ∧
    (∀ (s : QueueState) (t u : Nat) (rest : List Nat),
        QReach s → s.running = [t] → s.waiting = u :: rest →
        ∃ s' s'', QStep s s' ∧ QStep s' s'' ∧
          s'.running = [] ∧ s''.started = s.started ++ [u] ∧ s''.running = [u]) := by
  refine ⟨?_, ?_, ?_⟩
  · intro s h
    induction h with
    | init => simp
    | step hr hs ih => exact qstep_running_le hs ih
  · intro s h
    induction h with
    | init => rfl
    | step hr hs ih => exact qstep_fifo hs ih
  · intro s t u rest hreach hrun hwait
    have herase : s.running.erase t = [] := by
      rw [hrun]; simp
    refine ⟨_, _, QStep.finish s t false (by rw [hrun]; simp),
            QStep.start _ u rest (by simpa using hwait) (by simp [herase]), ?_, ?_, ?_⟩
    · simpa using herase
    · rfl
    · simp [herase]

/-- Witness for C4: a reachable state with task 0 running and task 1
waiting, reached by enqueueing 0 then 1 and starting 0; the queue can
finish 0 with a failure and immediately start 1. -/
theorem c4_single_flight_witness :
    (QueueState.mk [1] [0] [0, 1] [0]).running.length ≤ 1 ∧
    (QueueState.mk [1] [0] [0, 1] [0]).started ++ (QueueState.mk [1] [0] [0, 1] [0]).waiting
      = (QueueState.mk [1] [0] [0, 1] [0]).enqueued ∧
    (∃ s' s'', QStep (QueueState.mk [1] [0] [0, 1] [0]) s' ∧ QStep s' s'' ∧
        s'.running = [] ∧ s''.started = (QueueState.mk [1] [0] [0, 1] [0]).started ++ [1] ∧
        s''.running = [1]) := by
  have h0 : QReach ⟨[], [], [], []⟩ := QReach.init
  have h1 : QReach ⟨[0], [], [0], []⟩ := QReach.step h0 (QStep.enqueue _ 0)
  have h2 : QReach ⟨[0, 1], [], [0, 1], []⟩ := QReach.step h1 (QStep.enqueue _ 1)
  have h3 : QReach ⟨[1], [0], [0, 1], [0]⟩ :=
    QReach.step h2 (QStep.start _ 0 [1] rfl (by simp))
  exact ⟨c4_single_flight.1 _ h3, c4_single_flight.2.1 _ h3,
         c4_single_flight.2.2 _ 0 1 [] h3 rfl rfl⟩
